import Mathlib

/-!
Shallow embedding of the secure API key storage engine of
`genai-key-storage-lite` (`src/main/ApiKeyServiceMain.ts`, the provider
validators of `src/common/providers/*.ts` and the registry of
`src/common/providers/ProviderService.ts`), together with theorems
checking the natural-language specification against it.

Modelling conventions:
- JavaScript strings are Lean `String`s; the string primitives the
  source uses (`slice`, `startsWith`, `endsWith`, `split`-style path
  handling) are defined here over the character list `String.data`, so
  that every definition evaluates by kernel reduction.
- Filesystem state is an association list from full file path to the
  parse-level content of the file (`FileData`): a file is either absent,
  present but not valid JSON (`unparseable`), or a parsed JSON object of
  which only the two fields the source ever reads are kept
  (`encryptedKey`, `lastFourChars`), each an optional string so that a
  missing field and an empty-string field (both falsy in JavaScript) are
  representable.
- The in-memory metadata map `loadedKeyMetadata` is an association list
  from provider id to the `lastFourChars` string.
- `electron.safeStorage` is the external encryption collaborator: a
  record of an availability flag and two string functions; `encB`
  composes `encryptString` with base64 encoding (the stored blob) and
  `decB` composes base64 decoding with `decryptString`.
- Every operation additionally returns the ordered trace of its
  filesystem and cache effects, so that effect-ordering and
  "does not touch the disk" statements are expressible.
- Deterministic filesystem: writes succeed, `unlink` of an existing file
  succeeds, `unlink` of a missing file rejects with `ENOENT` (which the
  source swallows).
-/

deriving instance DecidableEq for Except

namespace KeyStorage

/-- `a.startsWith b` on character lists. -/
def strStartsWith (s pre : String) : Bool :=
  pre.data.isPrefixOf s.data

/-- `a.endsWith b` on character lists. -/
def strEndsWith (s suf : String) : Bool :=
  suf.data.isSuffixOf s.data

/-- Drop the first `n` characters. -/
def strDrop (s : String) (n : Nat) : String :=
  ⟨s.data.drop n⟩

/-- Character count of a string (JavaScript `length`). -/
def strLength (s : String) : Nat :=
  s.data.length

/-- Emptiness of a string. -/
def strIsEmpty (s : String) : Bool :=
  s.data.isEmpty

/-- Drop the last `n` characters. -/
def strDropRight (s : String) (n : Nat) : String :=
  ⟨s.data.take (s.data.length - n)⟩

/-- JavaScript truthiness of an optional string JSON field: a missing
field and the empty string are both falsy. -/
def truthy : Option String → Bool
  | none => false
  | some s => !strIsEmpty s

/-- Association-list lookup (models `Map.get` / keyed file lookup). -/
def alGet {α : Type} : List (String × α) → String → Option α
  | [], _ => none
  | (k', v) :: rest, k => if k' = k then some v else alGet rest k

/-- Association-list insert-or-replace (models `Map.set` / file write). -/
def alSet {α : Type} : List (String × α) → String → α → List (String × α)
  | [], k, v => [(k, v)]
  | (k', v') :: rest, k, v =>
    if k' = k then (k, v) :: rest else (k', v') :: alSet rest k v

/-- Association-list removal (models `Map.delete` / file unlink). -/
def alDel {α : Type} (m : List (String × α)) (k : String) : List (String × α) :=
  m.filter (fun p => p.1 ≠ k)

/-- Character class `[A-Za-z0-9-_]` shared by all provider key regexes. -/
def isKeyChar (c : Char) : Bool :=
  c.isAlpha || c.isDigit || c = '-' || c = '_'

/-- `OpenAIProvider.validateApiKey`: regex
`(sk|org)` then `-` then 32 to 200 key characters, anchored. -/
def openaiValid (k : String) : Bool :=
  (strStartsWith k "sk-" &&
    (let r := (strDrop k 3).data
     (32 ≤ r.length && r.length ≤ 200) && r.all isKeyChar)) ||
  (strStartsWith k "org-" &&
    (let r := (strDrop k 4).data
     (32 ≤ r.length && r.length ≤ 200) && r.all isKeyChar))

/-- `AnthropicProvider.validateApiKey`: `sk-ant-` then at least 24 key
characters, anchored. -/
def anthropicValid (k : String) : Bool :=
  strStartsWith k "sk-ant-" &&
    (let r := (strDrop k 7).data
     24 ≤ r.length && r.all isKeyChar)

/-- `GeminiProvider.validateApiKey`: `AI` then 35 to 45 key characters,
anchored. -/
def geminiValid (k : String) : Bool :=
  strStartsWith k "AI" &&
    (let r := (strDrop k 2).data
     (35 ≤ r.length && r.length ≤ 45) && r.all isKeyChar)

/-- `MistralProvider.validateApiKey`: 32 to 64 key characters, anchored. -/
def mistralValid (k : String) : Bool :=
  (32 ≤ strLength k && strLength k ≤ 64) && k.data.all isKeyChar

/-- `ProviderService.getProvider` over the four built-in registrations of
`registerBuiltInProviders`. -/
def getProvider (i : String) : Option (String → Bool) :=
  if i = "openai" then some openaiValid
  else if i = "anthropic" then some anthropicValid
  else if i = "gemini" then some geminiValid
  else if i = "mistral" then some mistralValid
  else none

/-- `ProviderService.validateApiKey`: `false` when the provider is
unknown, otherwise the provider's validator. -/
def validateApiKey (i k : String) : Bool :=
  match getProvider i with
  | some v => v k
  | none => false

/-- Split a character list at `/` separators. -/
def splitSlashAux : List Char → List Char → List (List Char)
  | [], cur => [cur.reverse]
  | c :: rest, cur =>
    if c = '/' then cur.reverse :: splitSlashAux rest []
    else splitSlashAux rest (c :: cur)

/-- Segments of a path string. -/
def splitSlash (cs : List Char) : List (List Char) :=
  splitSlashAux cs []

/-- One step of Node `path` normalization over segments: `..` pops the
previous segment (and at the root of an absolute path simply vanishes);
empty and `.` segments were filtered out beforehand. -/
def normStep (abs : Bool) (acc : List (List Char)) (seg : List Char) :
    List (List Char) :=
  if seg = ['.', '.'] then
    match acc with
    | [] => if abs then [] else [seg]
    | a :: rest => if a = ['.', '.'] then seg :: acc else rest
  else seg :: acc

/-- Rejoin segments with `/` separators. -/
def joinSegs : List (List Char) → List Char
  | [] => []
  | [s] => s
  | s :: rest => s ++ '/' :: joinSegs rest

/-- Node `path.join(a, b)`: concatenate with a separator, then normalize
(collapse separators, resolve `.` and `..`). -/
def pathJoin (a b : String) : String :=
  let raw := a.data ++ '/' :: b.data
  let abs := match raw with
    | '/' :: _ => true
    | _ => false
  let segs := (splitSlash raw).filter (fun s => !s.isEmpty && s ≠ ['.'])
  let stack := segs.foldl (normStep abs) []
  ⟨(if abs then ['/'] else []) ++ joinSegs stack.reverse⟩

/-- `ApiKeyServiceMain.getFilePath`:
`path.join(this.storageDir, providerId + ".json")`. No validation of the
identifier is performed. -/
def getFilePath (root i : String) : String :=
  pathJoin root (i ++ ".json")

/-- Parse-level content of an on-disk credential file. -/
inductive FileData : Type
  | unparseable : FileData
  | record (encryptedKey : Option String) (lastFourChars : Option String) : FileData
deriving DecidableEq, Repr

/-- Engine state: `loadedKeyMetadata` (provider id to `lastFourChars`)
and the filesystem (full path to file content). -/
structure EngineState where
  cache : List (String × String)
  disk : List (String × FileData)
deriving DecidableEq, Repr

/-- The external `electron.safeStorage` collaborator. `encB` is
`encryptString` composed with base64 encoding; `decB` is the reverse
direction. -/
structure EncService where
  available : Bool
  encB : String → String
  decB : String → String

/-- Observable effects of one operation, in order. -/
inductive Event : Type
  | fsAccess (p : String) : Event
  | fsRead (p : String) : Event
  | fsWrite (p : String) (d : FileData) : Event
  | fsUnlink (p : String) : Event
  | cacheSet (i v : String) : Event
  | cacheDel (i : String) : Event
deriving DecidableEq, Repr

/-- Whether an event mutates or reads the metadata cache. -/
def Event.isCacheEvent : Event → Bool
  | .cacheSet _ _ => true
  | .cacheDel _ => true
  | _ => false

/-- The error class `ApiKeyStorageError` of `src/common/errors.ts`:
a single class carrying only a message string. -/
structure ApiKeyStorageError where
  message : String
deriving DecidableEq, Repr

/-- Result of an operation: value, post-state, effect trace. -/
structure Op (α : Type) where
  res : α
  st : EngineState
  tr : List Event
deriving DecidableEq, Repr

/-- `apiKey.slice(-4)`: the last four characters, or the whole string
when it is shorter than four characters. -/
def jsSliceLast4 (s : String) : String :=
  strDrop s (strLength s - 4)

/-- `ApiKeyServiceMain.storeKey`: validate the format, check encryption
availability, then encrypt, write the JSON record to disk and finally
update the in-memory metadata. -/
def storeKey (E : EncService) (root i apiKey : String) (st : EngineState) :
    Op (Except ApiKeyStorageError Unit) :=
  if !(validateApiKey i apiKey) then
    ⟨.error ⟨"Invalid API key format for provider: " ++ i⟩, st, []⟩
  else if !E.available then
    ⟨.error ⟨"OS-level encryption is not available. Please ensure your system supports secure storage."⟩, st, []⟩
  else
    let lastFourChars := jsSliceLast4 apiKey
    let blob := E.encB apiKey
    let p := getFilePath root i
    let fd : FileData := .record (some blob) (some lastFourChars)
    ⟨.ok (), ⟨alSet st.cache i lastFourChars, alSet st.disk p fd⟩,
      [.fsWrite p fd, .cacheSet i lastFourChars]⟩

/-- Fixed failure message of `withDecryptedKey`, used for every failure
of `_getDecryptedKey` regardless of its cause. -/
def keyUnavailableMsg (i : String) : String :=
  "API key not found, could not be decrypted, or was invalid for provider: " ++ i ++ ". Please check storage and OS encryption capabilities."

/-- `ApiKeyServiceMain._getDecryptedKey`: returns the decrypted key, or
`none` when the file is absent, unparseable, missing a truthy
`encryptedKey`, encryption is unavailable, or the decrypted value fails
the provider validator. Does not modify state. -/
def getDecryptedKey (E : EncService) (root i : String) (st : EngineState) :
    Option String × List Event :=
  let p := getFilePath root i
  match alGet st.disk p with
  | none => (none, [.fsAccess p])
  | some .unparseable => (none, [.fsAccess p, .fsRead p])
  | some (.record ek _) =>
    let evs : List Event := [.fsAccess p, .fsRead p]
    match ek with
    | none => (none, evs)
    | some b =>
      if strIsEmpty b then (none, evs)
      else if !E.available then (none, evs)
      else
        let decryptedKey := E.decB b
        if !(validateApiKey i decryptedKey) then (none, evs)
        else (some decryptedKey, evs)

/-- `ApiKeyServiceMain.withDecryptedKey`: fetch and decrypt on demand; on
any failure of `_getDecryptedKey` raise the single `ApiKeyStorageError`
with `keyUnavailableMsg`; otherwise run the callback, propagating its
outcome unchanged. -/
def withDecryptedKey {α : Type} (E : EncService) (root i : String)
    (operationUsingKey : String → Except ApiKeyStorageError α)
    (st : EngineState) : Except ApiKeyStorageError α × List Event :=
  let r := getDecryptedKey E root i st
  match r.1 with
  | none => (.error ⟨keyUnavailableMsg i⟩, r.2)
  | some k =>
    if strIsEmpty k then (.error ⟨keyUnavailableMsg i⟩, r.2)
    else (operationUsingKey k, r.2)

/-- `ApiKeyServiceMain.deleteKey`: remove the metadata entry first, then
unlink the file; a missing file (`ENOENT`) is swallowed. Always
succeeds. -/
def deleteKey (root i : String) (st : EngineState) :
    Op (Except ApiKeyStorageError Unit) :=
  let p := getFilePath root i
  ⟨.ok (), ⟨alDel st.cache i, alDel st.disk p⟩, [.cacheDel i, .fsUnlink p]⟩

/-- `ApiKeyServiceMain.isKeyStored`: cache hit returns `true` with no
disk access; otherwise file existence decides, with a best-effort
metadata backfill when the file parses with a truthy `lastFourChars`. -/
def isKeyStored (root i : String) (st : EngineState) : Op Bool :=
  if (alGet st.cache i).isSome then ⟨true, st, []⟩
  else
    let p := getFilePath root i
    match alGet st.disk p with
    | none => ⟨false, st, [.fsAccess p]⟩
    | some .unparseable => ⟨true, st, [.fsAccess p, .fsRead p]⟩
    | some (.record _ lf) =>
      match lf with
      | some v =>
        if !strIsEmpty v then
          ⟨true, ⟨alSet st.cache i v, st.disk⟩, [.fsAccess p, .fsRead p, .cacheSet i v]⟩
        else ⟨true, st, [.fsAccess p, .fsRead p]⟩
      | none => ⟨true, st, [.fsAccess p, .fsRead p]⟩

/-- Display information returned by `getApiKeyDisplayInfo`. -/
structure DisplayInfo where
  isStored : Bool
  lastFourChars : Option String
deriving DecidableEq, Repr

/-- `ApiKeyServiceMain.getApiKeyDisplayInfo`: cache hit answers from
memory; otherwise read the file, backfilling the cache on a truthy
`lastFourChars`; a missing or unparseable file, or a parsed record with
no truthy `lastFourChars`, yields `isStored = false`. -/
def getApiKeyDisplayInfo (root i : String) (st : EngineState) : Op DisplayInfo :=
  match alGet st.cache i with
  | some lf => ⟨⟨true, some lf⟩, st, []⟩
  | none =>
    let p := getFilePath root i
    match alGet st.disk p with
    | none => ⟨⟨false, none⟩, st, [.fsRead p]⟩
    | some .unparseable => ⟨⟨false, none⟩, st, [.fsRead p]⟩
    | some (.record _ lf) =>
      match lf with
      | some v =>
        if !strIsEmpty v then
          ⟨⟨true, some v⟩, ⟨alSet st.cache i v, st.disk⟩, [.fsRead p, .cacheSet i v]⟩
        else ⟨⟨false, none⟩, st, [.fsRead p]⟩
      | none => ⟨⟨false, none⟩, st, [.fsRead p]⟩

/-- Per-file body of `loadAllKeysFromDisk`: strip the `.json` suffix
(`path.basename(keyFile, ".json")` for the filenames the filter lets
through), skip unknown providers, and on a successful read and parse
with a truthy `lastFourChars`, insert the metadata; every read and parse
failure is caught inside the loop and the cache is left unchanged. -/
def scanOneFile (root : String) (disk : List (String × FileData))
    (cache : List (String × String)) (keyFile : String) :
    List (String × String) :=
  let providerId := strDropRight keyFile 5
  if (getProvider providerId).isNone then cache
  else
    match alGet disk (pathJoin root keyFile) with
    | none => cache
    | some .unparseable => cache
    | some (.record _ lf) =>
      match lf with
      | some v => if !strIsEmpty v then alSet cache providerId v else cache
      | none => cache

/-- `ApiKeyServiceMain.loadAllKeysFromDisk` given the directory listing:
keep the `.json` files and fold the per-file body over them; per-file
failures are caught inside the loop, so the scan is a total function of
the listing and the disk. -/
def loadAllKeysFromDisk (root : String) (listing : List String)
    (disk : List (String × FileData)) (cache : List (String × String)) :
    List (String × String) :=
  (listing.filter (fun f => strEndsWith f ".json")).foldl (scanOneFile root disk) cache

/-- A path is a direct child of `root` when it extends `root ++ "/"` by a
single separator-free component. -/
def isDirectChild (root p : String) : Bool :=
  strStartsWith p (root ++ "/") && !((strDrop p (strLength root + 1)).data.contains '/')

/-! ### Helper lemmas -/

theorem alGet_alSet_self {α : Type} (m : List (String × α)) (k : String) (v : α) :
    alGet (alSet m k v) k = some v := by
  induction m with
  | nil => simp [alSet, alGet]
  | cons hd tl ih =>
    by_cases h : hd.1 = k
    · simp [alSet, alGet, h]
    · simp only [alSet, alGet, h, if_false]
      exact ih

theorem alGet_alDel_self {α : Type} (m : List (String × α)) (k : String) :
    alGet (alDel m k) k = none := by
  induction m with
  | nil => rfl
  | cons hd tl ih =>
    by_cases h : hd.1 = k
    · simpa [alDel, List.filter_cons, h] using ih
    · simpa [alDel, alGet, List.filter_cons, h] using ih

theorem alDel_alDel {α : Type} (m : List (String × α)) (k : String) :
    alDel (alDel m k) k = alDel m k := by
  simp [alDel, List.filter_filter]

theorem validateApiKey_empty (i : String) : validateApiKey i "" = false := by
  unfold validateApiKey getProvider
  split_ifs <;> decide

theorem validateApiKey_ne_empty {i k : String} (h : validateApiKey i k = true) :
    strIsEmpty k = false := by
  cases k with
  | mk data =>
    cases data with
    | nil => rw [show String.mk [] = "" from rfl] at h; rw [validateApiKey_empty] at h; cases h
    | cons c cs => rfl

/-! ### Sample environment used by witnesses -/

/-- A concrete encryption service: prefixes a three-character header on
encryption and strips it on decryption (so decryption inverts
encryption, and no ciphertext is empty), reported available. -/
def sampleEnc : EncService :=
  ⟨true, fun s => "v10" ++ s, fun t => strDrop t 3⟩

/-- The same concrete service, reported unavailable. -/
def sampleEncOff : EncService :=
  ⟨false, fun s => "v10" ++ s, fun t => strDrop t 3⟩

/-- A concrete well-formed OpenAI key (3 + 32 characters). -/
def sampleKey : String := "sk-aaaaaaaaaaaaaaaaaaaaaaaaaaaaaaaa"

/-! ### Claim theorems -/

/-- C1: for every registered provider `i` and secret `s` accepted by
`i`'s validator, when the encryption service is available, decryption
inverts encryption on `s`, and the ciphertext blob is non-empty (always
true of `safeStorage`, whose output carries a version header),
`storeKey i s` succeeds and `withDecryptedKey i` with the identity
callback succeeds with exactly `s`. -/
theorem store_then_withDecryptedKey_roundtrip
    (E : EncService) (root i s : String) (st : EngineState)
    (hval : validateApiKey i s = true)
    (hav : E.available = true)
    (hinv : E.decB (E.encB s) = s)
    (hne : strIsEmpty (E.encB s) = false) :
    (storeKey E root i s st).res = .ok () ∧
    (withDecryptedKey E root i (fun k => .ok k) (storeKey E root i s st).st).1
      = .ok s := by
  constructor
  · simp [storeKey, hval, hav]
  · simp [storeKey, hval, hav, withDecryptedKey, getDecryptedKey,
      alGet_alSet_self, hne, hinv, validateApiKey_ne_empty hval]

/-- Witness for C1 at the sample provider, key and encryption service. -/
theorem store_then_withDecryptedKey_roundtrip_witness :
    (storeKey sampleEnc "/r" "openai" sampleKey ⟨[], []⟩).res = .ok () ∧
    (withDecryptedKey sampleEnc "/r" "openai" (fun k => .ok k)
        (storeKey sampleEnc "/r" "openai" sampleKey ⟨[], []⟩).st).1
      = .ok sampleKey :=
  store_then_withDecryptedKey_roundtrip sampleEnc "/r" "openai" sampleKey
    ⟨[], []⟩ (by decide) rfl (by decide) (by decide)

/-- C2: contrary to the specification, `getFilePath` performs no
identifier validation at all: for the traversal identifier
`"../other-folder/key"` it resolves (without any error) to a normalized
path outside the storage root, the path is not a direct child of the
root, and `deleteKey` on that identifier succeeds and issues a
filesystem `unlink` at the escaped path. The repository's own test suite
(`src/main/ApiKeyServiceMain.test.ts`) instead requires a
`validateAndGetSecurePath` method that throws on exactly this input, and
`CLAUDE.md` instructs to always use it, so the shipped code contradicts
its own tests. -/
theorem getFilePath_accepts_traversal :
    getFilePath "/data/secure_api_keys" "../other-folder/key"
      = "/data/other-folder/key.json" ∧
    isDirectChild "/data/secure_api_keys"
      (getFilePath "/data/secure_api_keys" "../other-folder/key") = false ∧
    (deleteKey "/data/secure_api_keys" "../other-folder/key" ⟨[], []⟩).res
      = .ok () ∧
    (deleteKey "/data/secure_api_keys" "../other-folder/key" ⟨[], []⟩).tr
      = [.cacheDel "../other-folder/key",
         .fsUnlink "/data/other-folder/key.json"] := by
  decide

/-- C10: a record file that exists and parses but has no `lastFourChars`
field, with the provider absent from the cache, is reachable (the
startup scan of exactly this disk caches nothing), and on it
`isKeyStored` answers `true` while `getApiKeyDisplayInfo` answers
`isStored = false`: the two queries disagree. -/
theorem isKeyStored_vs_displayInfo_disagree :
    loadAllKeysFromDisk "/r" ["openai.json"]
        [("/r/openai.json", .record (some "blob") none)] [] = [] ∧
    (isKeyStored "/r" "openai"
        ⟨[], [("/r/openai.json", .record (some "blob") none)]⟩).res = true ∧
    (getApiKeyDisplayInfo "/r" "openai"
        ⟨[], [("/r/openai.json", .record (some "blob") none)]⟩).res
      = ⟨false, none⟩ := by
  decide

/-- C3 counterexample: the four failure causes of `withDecryptedKey`
(no record file; record unparseable; record missing the encrypted blob;
encryption unavailable; decrypted value failing the validator) all raise
the very same `ApiKeyStorageError` value, so they are not
distinguishable by the caller. -/
theorem withDecryptedKey_errors_indistinguishable :
    (withDecryptedKey sampleEnc "/r" "openai" (fun k => .ok k)
        ⟨[], []⟩).1 = .error ⟨keyUnavailableMsg "openai"⟩ ∧
    (withDecryptedKey sampleEnc "/r" "openai" (fun k => .ok k)
        ⟨[], [("/r/openai.json", .unparseable)]⟩).1
      = .error ⟨keyUnavailableMsg "openai"⟩ ∧
    (withDecryptedKey sampleEnc "/r" "openai" (fun k => .ok k)
        ⟨[], [("/r/openai.json", .record none (some "xxxx"))]⟩).1
      = .error ⟨keyUnavailableMsg "openai"⟩ ∧
    (withDecryptedKey sampleEncOff "/r" "openai" (fun k => .ok k)
        ⟨[], [("/r/openai.json", .record (some "v10blob") (some "xxxx"))]⟩).1
      = .error ⟨keyUnavailableMsg "openai"⟩ ∧
    (withDecryptedKey sampleEnc "/r" "openai" (fun k => .ok k)
        ⟨[], [("/r/openai.json", .record (some "v10bad") (some "xxxx"))]⟩).1
      = .error ⟨keyUnavailableMsg "openai"⟩ := by
  decide

/-- C3 amended: `withDecryptedKey` fails, for each of the causes — file
absent, record unparseable, record missing the encrypted blob,
encryption unavailable, decrypted value failing the validator — with one
and the same `ApiKeyStorageError` whose message depends only on the
provider id; the causes are not distinguishable from the raised error. -/
theorem withDecryptedKey_single_error {α : Type} (E : EncService)
    (root i : String) (op : String → Except ApiKeyStorageError α)
    (st : EngineState) :
    (alGet st.disk (getFilePath root i) = none →
      (withDecryptedKey E root i op st).1 = .error ⟨keyUnavailableMsg i⟩) ∧
    (alGet st.disk (getFilePath root i) = some .unparseable →
      (withDecryptedKey E root i op st).1 = .error ⟨keyUnavailableMsg i⟩) ∧
    (∀ lf, alGet st.disk (getFilePath root i) = some (.record none lf) →
      (withDecryptedKey E root i op st).1 = .error ⟨keyUnavailableMsg i⟩) ∧
    (∀ b lf, alGet st.disk (getFilePath root i) = some (.record (some b) lf) →
      strIsEmpty b = false → E.available = false →
      (withDecryptedKey E root i op st).1 = .error ⟨keyUnavailableMsg i⟩) ∧
    (∀ b lf, alGet st.disk (getFilePath root i) = some (.record (some b) lf) →
      strIsEmpty b = false → E.available = true →
      validateApiKey i (E.decB b) = false →
      (withDecryptedKey E root i op st).1 = .error ⟨keyUnavailableMsg i⟩) := by
  refine ⟨fun h => ?_, fun h => ?_, fun lf h => ?_, fun b lf h hb hE => ?_,
    fun b lf h hb hE hv => ?_⟩
  · simp [withDecryptedKey, getDecryptedKey, h]
  · simp [withDecryptedKey, getDecryptedKey, h]
  · simp [withDecryptedKey, getDecryptedKey, h]
  · simp [withDecryptedKey, getDecryptedKey, h, hb, hE]
  · simp [withDecryptedKey, getDecryptedKey, h, hb, hE, hv]

/-- C3 amended witness: two of the causes discharged at concrete inputs,
yielding the identical concrete error. -/
theorem withDecryptedKey_single_error_witness :
    (withDecryptedKey sampleEnc "/r" "openai" (fun k => Except.ok k)
        ⟨[], []⟩).1 = .error ⟨keyUnavailableMsg "openai"⟩ ∧
    (withDecryptedKey sampleEncOff "/r" "openai" (fun k => Except.ok k)
        ⟨[], [("/r/openai.json", .record (some "v10blob") (some "xxxx"))]⟩).1
      = .error ⟨keyUnavailableMsg "openai"⟩ :=
  ⟨(withDecryptedKey_single_error sampleEnc "/r" "openai" (fun k => Except.ok k)
      ⟨[], []⟩).1 (by decide),
   (withDecryptedKey_single_error sampleEncOff "/r" "openai" (fun k => Except.ok k)
      ⟨[], [("/r/openai.json", .record (some "v10blob") (some "xxxx"))]⟩).2.2.2.1
      "v10blob" (some "xxxx") (by decide) (by decide) rfl⟩

/-- C4 counterexample: at a state holding an entry and a backing file
for `"openai"`, the effect trace of `deleteKey` begins with the cache
removal and only then performs the filesystem `unlink`: the cache is
modified for deletion before — not after — the backing file is removed
from disk. -/
theorem deleteKey_cache_before_disk :
    (deleteKey "/r" "openai"
        ⟨[("openai", "xxxx")],
         [("/r/openai.json", .record (some "v10blob") (some "xxxx"))]⟩).tr
      = [.cacheDel "openai", .fsUnlink "/r/openai.json"] ∧
    Event.isCacheEvent
      ((deleteKey "/r" "openai"
          ⟨[("openai", "xxxx")],
           [("/r/openai.json", .record (some "v10blob") (some "xxxx"))]⟩).tr.headD
        (.fsRead "")) = true := by
  decide

/-- C4 amended: `storeKey` performs its disk write before its cache
update (and performs no effect at all when it fails), but `deleteKey`
does the reverse of disk-first: it removes the metadata-cache entry
first and only then unlinks the backing file. -/
theorem mutation_effect_order (E : EncService) (root i s : String)
    (st : EngineState) :
    (validateApiKey i s = true → E.available = true →
      (storeKey E root i s st).tr
        = [.fsWrite (getFilePath root i)
            (.record (some (E.encB s)) (some (jsSliceLast4 s))),
           .cacheSet i (jsSliceLast4 s)]) ∧
    (validateApiKey i s = false → (storeKey E root i s st).tr = []) ∧
    (E.available = false → (storeKey E root i s st).tr = []) ∧
    (deleteKey root i st).tr = [.cacheDel i, .fsUnlink (getFilePath root i)] := by
  refine ⟨fun hval hav => ?_, fun hval => ?_, fun hav => ?_, rfl⟩
  · simp [storeKey, hval, hav]
  · simp [storeKey, hval]
  · cases hv : validateApiKey i s <;> simp [storeKey, hv, hav]

/-- C4 amended witness: the store-ordering branch discharged at the
sample provider, key and encryption service. -/
theorem mutation_effect_order_witness :
    (storeKey sampleEnc "/r" "openai" sampleKey ⟨[], []⟩).tr
      = [.fsWrite (getFilePath "/r" "openai")
          (.record (some (sampleEnc.encB sampleKey))
            (some (jsSliceLast4 sampleKey))),
         .cacheSet "openai" (jsSliceLast4 sampleKey)] :=
  (mutation_effect_order sampleEnc "/r" "openai" sampleKey ⟨[], []⟩).1
    (by decide) rfl

/-- C5: `deleteKey` always succeeds (also when the cache entry or the
backing file is absent), is idempotent on the state, removes the cache
entry, and afterwards `isKeyStored` answers `false` and
`withDecryptedKey` fails with the error raised for a missing record. -/
theorem deleteKey_idempotent_unstored {α : Type} (E : EncService)
    (root i : String) (op : String → Except ApiKeyStorageError α)
    (st : EngineState) :
    (deleteKey root i st).res = .ok () ∧
    alGet (deleteKey root i st).st.cache i = none ∧
    (deleteKey root i (deleteKey root i st).st).st = (deleteKey root i st).st ∧
    (isKeyStored root i (deleteKey root i st).st).res = false ∧
    (withDecryptedKey E root i op (deleteKey root i st).st).1
      = .error ⟨keyUnavailableMsg i⟩ := by
  refine ⟨rfl, alGet_alDel_self st.cache i, ?_, ?_, ?_⟩
  · simp [deleteKey, alDel_alDel]
  · simp [isKeyStored, deleteKey, alGet_alDel_self]
  · simp [withDecryptedKey, getDecryptedKey, deleteKey, alGet_alDel_self]

/-- C6: `isKeyStored` answers `true` exactly when the provider has a
cache entry or the backing file exists; a cache hit touches neither the
disk nor the state; on a cache miss it backfills the cache when the file
parses with a truthy `lastFourChars`, still answers `true` when the file
exists but is unparseable, and answers `false` only when the file is
absent. -/
theorem isKeyStored_semantics (root i : String) (st : EngineState) :
    ((isKeyStored root i st).res
      = ((alGet st.cache i).isSome
          || (alGet st.disk (getFilePath root i)).isSome)) ∧
    ((alGet st.cache i).isSome = true →
      isKeyStored root i st = ⟨true, st, []⟩) ∧
    (∀ ek v, alGet st.cache i = none →
      alGet st.disk (getFilePath root i) = some (.record ek (some v)) →
      strIsEmpty v = false →
      isKeyStored root i st
        = ⟨true, ⟨alSet st.cache i v, st.disk⟩,
            [.fsAccess (getFilePath root i), .fsRead (getFilePath root i),
             .cacheSet i v]⟩) ∧
    (alGet st.cache i = none →
      alGet st.disk (getFilePath root i) = some .unparseable →
      isKeyStored root i st
        = ⟨true, st, [.fsAccess (getFilePath root i),
            .fsRead (getFilePath root i)]⟩) ∧
    (alGet st.cache i = none →
      alGet st.disk (getFilePath root i) = none →
      isKeyStored root i st
        = ⟨false, st, [.fsAccess (getFilePath root i)]⟩) := by
  refine ⟨?_, fun hc => ?_, fun ek v hc hd hv => ?_, fun hc hd => ?_,
    fun hc hd => ?_⟩
  · by_cases hc : (alGet st.cache i).isSome
    · simp [isKeyStored, hc]
    · rcases hd : alGet st.disk (getFilePath root i) with _ | fd
      · simp [isKeyStored, hc, hd]
      · rcases fd with _ | ⟨ek, _ | v⟩
        · simp [isKeyStored, hc, hd]
        · simp [isKeyStored, hc, hd]
        · cases hv : strIsEmpty v <;> simp [isKeyStored, hc, hd, hv]
  · simp [isKeyStored, hc]
  · simp [isKeyStored, hc, hd, hv]
  · simp [isKeyStored, hc, hd]
  · simp [isKeyStored, hc, hd]

/-- C6 witness: the cache-hit branch and the absent-file branch
discharged at concrete states. -/
theorem isKeyStored_semantics_witness :
    isKeyStored "/r" "openai" ⟨[("openai", "xxxx")], []⟩
      = ⟨true, ⟨[("openai", "xxxx")], []⟩, []⟩ ∧
    isKeyStored "/r" "openai" ⟨[], []⟩
      = ⟨false, ⟨[], []⟩, [.fsAccess (getFilePath "/r" "openai")]⟩ :=
  ⟨(isKeyStored_semantics "/r" "openai" ⟨[("openai", "xxxx")], []⟩).2.1
      (by decide),
   (isKeyStored_semantics "/r" "openai" ⟨[], []⟩).2.2.2.2 (by decide)
      (by decide)⟩

/-- C7: a successful `storeKey i s` records `lastFourChars` equal to
`s.slice(-4)`, and `getApiKeyDisplayInfo` then reports exactly that
value; `slice(-4)` is the length-at-most-four suffix of its argument and
equals the whole string when the string is shorter than four
characters. -/
theorem storeKey_lastFour (E : EncService) (root i s : String)
    (st : EngineState) (hval : validateApiKey i s = true)
    (hav : E.available = true) :
    alGet (storeKey E root i s st).st.disk (getFilePath root i)
      = some (.record (some (E.encB s)) (some (jsSliceLast4 s))) ∧
    (getApiKeyDisplayInfo root i (storeKey E root i s st).st).res
      = ⟨true, some (jsSliceLast4 s)⟩ ∧
    (∀ t : String,
      (jsSliceLast4 t).data = t.data.drop (t.data.length - 4) ∧
      strLength (jsSliceLast4 t) ≤ 4 ∧
      t.data = t.data.take (t.data.length - 4) ++ (jsSliceLast4 t).data ∧
      (strLength t < 4 → jsSliceLast4 t = t)) := by
  refine ⟨?_, ?_, fun t => ⟨rfl, ?_, (List.take_append_drop _ _).symm, fun ht => ?_⟩⟩
  · simp [storeKey, hval, hav, alGet_alSet_self]
  · simp [storeKey, hval, hav, getApiKeyDisplayInfo, alGet_alSet_self]
  · simp only [strLength, jsSliceLast4, strDrop, List.length_drop]
    omega
  · have h0 : strLength t - 4 = 0 := by
      simp only [strLength] at ht ⊢
      omega
    simp [jsSliceLast4, strDrop, h0]

/-- C7 witness: the display path at the sample valid key, and the
short-string edge case of `slice(-4)` at `"abc"`. -/
theorem storeKey_lastFour_witness :
    (getApiKeyDisplayInfo "/r" "openai"
        (storeKey sampleEnc "/r" "openai" sampleKey ⟨[], []⟩).st).res
      = ⟨true, some (jsSliceLast4 sampleKey)⟩ ∧
    jsSliceLast4 "abc" = "abc" :=
  ⟨(storeKey_lastFour sampleEnc "/r" "openai" sampleKey ⟨[], []⟩
      (by decide) rfl).2.1,
   ((storeKey_lastFour sampleEnc "/r" "openai" sampleKey ⟨[], []⟩
      (by decide) rfl).2.2 "abc").2.2.2 (by decide)⟩

/-- If one file's per-file body leaves any cache unchanged, removing it
from the listing does not change the scan result: the remaining files
are processed exactly as before. -/
theorem loadAll_skip (root : String) (disk : List (String × FileData))
    (cache0 : List (String × String)) (pre post : List String) (f : String)
    (hid : ∀ c, scanOneFile root disk c f = c) :
    loadAllKeysFromDisk root (pre ++ f :: post) disk cache0
      = loadAllKeysFromDisk root (pre ++ post) disk cache0 := by
  unfold loadAllKeysFromDisk
  cases hf : strEndsWith f ".json"
  · simp [List.filter_append, List.filter_cons, hf]
  · simp [List.filter_append, List.filter_cons, hf, List.foldl_append, hid]

/-- C8: the startup scan is a total function of the listing and the
disk (its per-file failures are caught inside the loop), and a file that
is skipped or fails — name not ending in `.json`, basename not a
registered provider, file unreadable, file unparseable, or record
without a `lastFourChars` field — contributes nothing while every other
file of the listing is processed exactly as without it; a readable,
parseable record of a registered provider with a truthy `lastFourChars`
adds exactly its cache entry. -/
theorem loadAllKeys_scan_robust (root : String)
    (disk : List (String × FileData)) (cache0 : List (String × String))
    (pre post : List String) (f : String) :
    (strEndsWith f ".json" = false →
      loadAllKeysFromDisk root (pre ++ f :: post) disk cache0
        = loadAllKeysFromDisk root (pre ++ post) disk cache0) ∧
    ((getProvider (strDropRight f 5)).isNone = true →
      loadAllKeysFromDisk root (pre ++ f :: post) disk cache0
        = loadAllKeysFromDisk root (pre ++ post) disk cache0) ∧
    (alGet disk (pathJoin root f) = none →
      loadAllKeysFromDisk root (pre ++ f :: post) disk cache0
        = loadAllKeysFromDisk root (pre ++ post) disk cache0) ∧
    (alGet disk (pathJoin root f) = some .unparseable →
      loadAllKeysFromDisk root (pre ++ f :: post) disk cache0
        = loadAllKeysFromDisk root (pre ++ post) disk cache0) ∧
    (∀ ek, alGet disk (pathJoin root f) = some (.record ek none) →
      loadAllKeysFromDisk root (pre ++ f :: post) disk cache0
        = loadAllKeysFromDisk root (pre ++ post) disk cache0) ∧
    (∀ ek v, strEndsWith f ".json" = true →
      (getProvider (strDropRight f 5)).isSome = true →
      alGet disk (pathJoin root f) = some (.record ek (some v)) →
      strIsEmpty v = false →
      loadAllKeysFromDisk root (pre ++ [f]) disk cache0
        = alSet (loadAllKeysFromDisk root pre disk cache0)
            (strDropRight f 5) v) := by
  refine ⟨fun hf => ?_, fun hp => ?_, fun hd => ?_, fun hd => ?_,
    fun ek hd => ?_, fun ek v hf hp hd hv => ?_⟩
  · unfold loadAllKeysFromDisk
    simp [List.filter_append, List.filter_cons, hf]
  · exact loadAll_skip root disk cache0 pre post f
      (fun c => by simp [scanOneFile, hp])
  · refine loadAll_skip root disk cache0 pre post f (fun c => ?_)
    by_cases hp : (getProvider (strDropRight f 5)).isNone = true
    · simp [scanOneFile, hp]
    · simp [scanOneFile, hp, hd]
  · refine loadAll_skip root disk cache0 pre post f (fun c => ?_)
    by_cases hp : (getProvider (strDropRight f 5)).isNone = true
    · simp [scanOneFile, hp]
    · simp [scanOneFile, hp, hd]
  · refine loadAll_skip root disk cache0 pre post f (fun c => ?_)
    by_cases hp : (getProvider (strDropRight f 5)).isNone = true
    · simp [scanOneFile, hp]
    · simp [scanOneFile, hp, hd]
  · rcases hpv : getProvider (strDropRight f 5) with _ | vfun
    · rw [hpv] at hp; cases hp
    · unfold loadAllKeysFromDisk
      simp [List.filter_append, List.filter_cons, hf, List.foldl_append,
        scanOneFile, hpv, hd, hv]

/-- C8 witness: a listing where the middle file is unreadable is scanned
like the listing without it, and a good file adds exactly its entry. -/
theorem loadAllKeys_scan_robust_witness :
    loadAllKeysFromDisk "/r" ["openai.json", "gemini.json", "anthropic.json"]
        [("/r/openai.json", .record (some "b") (some "aaaa")),
         ("/r/anthropic.json", .record (some "b") (some "zzzz"))] []
      = loadAllKeysFromDisk "/r" ["openai.json", "anthropic.json"]
        [("/r/openai.json", .record (some "b") (some "aaaa")),
         ("/r/anthropic.json", .record (some "b") (some "zzzz"))] [] ∧
    loadAllKeysFromDisk "/r" ["openai.json", "anthropic.json"]
        [("/r/openai.json", .record (some "b") (some "aaaa")),
         ("/r/anthropic.json", .record (some "b") (some "zzzz"))] []
      = alSet (loadAllKeysFromDisk "/r" ["openai.json"]
          [("/r/openai.json", .record (some "b") (some "aaaa")),
           ("/r/anthropic.json", .record (some "b") (some "zzzz"))] [])
          "anthropic" "zzzz" :=
  ⟨(loadAllKeys_scan_robust "/r"
      [("/r/openai.json", .record (some "b") (some "aaaa")),
       ("/r/anthropic.json", .record (some "b") (some "zzzz"))] []
      ["openai.json"] ["anthropic.json"] "gemini.json").2.2.1 (by decide),
   (loadAllKeys_scan_robust "/r"
      [("/r/openai.json", .record (some "b") (some "aaaa")),
       ("/r/anthropic.json", .record (some "b") (some "zzzz"))] []
      ["openai.json"] [] "anthropic.json").2.2.2.2.2 (some "b") "zzzz"
      (by decide) (by decide) (by decide) (by decide)⟩

/-- C9: the error raised by `storeKey` for a format-invalid secret has a
message depending only on the provider id (any two rejected secrets
yield identical errors), and the error raised by `withDecryptedKey` when
the decrypted value fails validation is the fixed per-provider message,
identical across any two decrypted plaintexts and thus containing no
part of either. -/
theorem errors_independent_of_secret {α : Type} (E E1 E2 : EncService)
    (root i s1 s2 : String) (st st1 st2 : EngineState)
    (op1 op2 : String → Except ApiKeyStorageError α) :
    (validateApiKey i s1 = false → validateApiKey i s2 = false →
      (storeKey E root i s1 st).res = (storeKey E root i s2 st).res ∧
      (storeKey E root i s1 st).res
        = .error ⟨"Invalid API key format for provider: " ++ i⟩) ∧
    (∀ b1 b2 lf1 lf2,
      alGet st1.disk (getFilePath root i) = some (.record (some b1) lf1) →
      alGet st2.disk (getFilePath root i) = some (.record (some b2) lf2) →
      strIsEmpty b1 = false → strIsEmpty b2 = false →
      E1.available = true → E2.available = true →
      validateApiKey i (E1.decB b1) = false →
      validateApiKey i (E2.decB b2) = false →
      (withDecryptedKey E1 root i op1 st1).1
        = (withDecryptedKey E2 root i op2 st2).1 ∧
      (withDecryptedKey E1 root i op1 st1).1
        = .error ⟨keyUnavailableMsg i⟩) := by
  refine ⟨fun h1 h2 => ⟨?_, ?_⟩,
    fun b1 b2 lf1 lf2 hd1 hd2 hb1 hb2 hE1 hE2 hv1 hv2 => ⟨?_, ?_⟩⟩
  · simp [storeKey, h1, h2]
  · simp [storeKey, h1]
  · simp [withDecryptedKey, getDecryptedKey, hd1, hd2, hb1, hb2, hE1, hE2,
      hv1, hv2]
  · simp [withDecryptedKey, getDecryptedKey, hd1, hb1, hE1, hv1]

/-- C9 witness: two format-invalid secrets raise the identical store
error, and two states decrypting to different invalid plaintexts raise
the identical decrypt-path error. -/
theorem errors_independent_of_secret_witness :
    (storeKey sampleEnc "/r" "openai" "bad-one" ⟨[], []⟩).res
      = (storeKey sampleEnc "/r" "openai" "bad-two-longer" ⟨[], []⟩).res ∧
    (withDecryptedKey sampleEnc "/r" "openai" (fun k => Except.ok k)
        ⟨[], [("/r/openai.json", .record (some "v10bad") (some "xxxx"))]⟩).1
      = (withDecryptedKey sampleEnc "/r" "openai" (fun k => Except.ok k)
          ⟨[], [("/r/openai.json",
                 .record (some "v10worse") (some "yyyy"))]⟩).1 :=
  ⟨((errors_independent_of_secret sampleEnc sampleEnc sampleEnc "/r" "openai"
      "bad-one" "bad-two-longer" ⟨[], []⟩ ⟨[], []⟩ ⟨[], []⟩
      (fun k => Except.ok k) (fun k => Except.ok k)).1
      (by decide) (by decide)).1,
   ((errors_independent_of_secret sampleEnc sampleEnc sampleEnc "/r" "openai"
      "bad-one" "bad-two-longer"
      ⟨[], []⟩
      ⟨[], [("/r/openai.json", .record (some "v10bad") (some "xxxx"))]⟩
      ⟨[], [("/r/openai.json", .record (some "v10worse") (some "yyyy"))]⟩
      (fun k => Except.ok k) (fun k => Except.ok k)).2
      "v10bad" "v10worse" (some "xxxx") (some "yyyy")
      (by decide) (by decide) (by decide) (by decide) rfl rfl
      (by decide) (by decide)).1⟩

end KeyStorage
